import Mathlib

/-!
Shallow embedding of the DLX code generator (`src/dlx/codegen.rs`) of the
`pchip` compiler, together with theorems settling the specification claims.

Conventions of the embedding:
* Rust `u32`/`i16` casts are made explicit (`toSigned16`, `toSigned32`,
  `wrapSub32`); machine integers are modelled as `Int`/`Nat` with explicit
  reductions where the source casts.
* Panics (`fail!`, `unimplemented!`) and the logger-then-abort path are both
  modelled as `Except.error`; code generation is all-or-nothing, matching the
  source's abort-on-first-error behaviour.
* The AST types (`ast.rs` is not part of the sources given) are reconstructed
  from their use sites in `codegen.rs` and the spec's input contract: an
  expression carries its form, a source span and a result-type annotation;
  a block carries its statements and a result-type annotation.
-/

namespace Dlx

/-- Truncation of an integer to 16 bits, reinterpreted as a signed value
(the semantics of Rust `as i16`). -/
def toSigned16 (v : Int) : Int :=
  (v + 32768) % 65536 - 32768

/-- Truncation of an integer to 32 bits, reinterpreted as a signed value
(the semantics of Rust `as i32`). -/
def toSigned32 (v : Int) : Int :=
  (v + 2147483648) % 4294967296 - 2147483648

/-- Wrapping `u32` subtraction `a - b` (old-Rust unsigned arithmetic wraps). -/
def wrapSub32 (a b : Nat) : Nat :=
  (a + 4294967296 - b % 4294967296) % 4294967296

/-- Wrapping `i16` addition, used for the frame-offset counter, which is an
`i16` in the source. -/
def addI16 (a b : Int) : Int :=
  toSigned16 (a + b)

/-- Register identifiers (`dlx::asm::RegId`). -/
abbrev RegId := Nat

/-- Label identifiers (`dlx::asm::LabelId`), opaque name strings. -/
abbrev LabelId := String

-- Special register that is always 0
def ZERO_REG : RegId := 0
-- Frame pointer register
def FRAME_POINTER : RegId := 30
-- Stack pointer register
def STACK_POINTER : RegId := 14
-- Return address register (set by jal)
def RETURN_REG : RegId := 31
-- Register used for storing the results of computations
def RESULT_REG : RegId := 1

/-- Resolved types (`enum Type` in `codegen.rs`).  `Composite` carries the
fields of the Rust `CompositeType` struct inline: its name, its ordered
field table `name -> (byte offset, type)`, and its total size. -/
inductive Ty where
  | Bool : Ty
  | Int : Ty
  | Unit : Ty
  | BottomType : Ty
  | Array : Ty → Nat → Ty
  | Pointer : Ty → Ty
  | Composite : String → List (String × Nat × Ty) → Nat → Ty

/-- Size of a resolved type in bytes (`Type::size`). -/
def Ty.size : Ty → Nat
  | .Bool => 4
  | .Int => 4
  | .Unit => 0
  | .BottomType => 0
  | .Array tp amount => tp.size * amount
  | .Pointer _ => 4
  | .Composite _ _ size => size

/-- Equality test on resolved types: the derived structural `PartialEq` of
`enum Type`, except that the hand-written `PartialEq for CompositeType`
compares composites by name alone. -/
def tyEq : Ty → Ty → Bool
  | .Bool, .Bool => true
  | .Int, .Int => true
  | .Unit, .Unit => true
  | .BottomType, .BottomType => true
  | .Array tp amount, .Array tp2 amount2 => tyEq tp tp2 && amount == amount2
  | .Pointer tp, .Pointer tp2 => tyEq tp tp2
  | .Composite name _ _, .Composite name2 _ _ => name == name2
  | _, _ => false

/-- Source spans (`error::InputSpan`); the code generator only threads them
through to diagnostics, so two positions suffice. -/
structure InputSpan where
  lo : Nat
  hi : Nat
deriving DecidableEq, Repr

/-- The invalid span (`InputSpan::invalid()`). -/
def InputSpan.invalid : InputSpan := ⟨0, 0⟩

/-- Fatal outcomes of code generation.  The source aborts the process
(`fail!`) on all of these; `Reported` additionally goes through the logger
first (`logger.report_error` followed by `fatal_error`), carrying the
diagnostic message and the offending source span. -/
inductive CompileErr where
  | IdentShadow : CompileErr
  | IdentNotFound : String → CompileErr
  | IncorrectType : Ty → Ty → CompileErr   -- expected, found
  | Reported : String → InputSpan → CompileErr
  | ExpectedFunction : CompileErr
  | ExpectedVariable : CompileErr
  | IncorrectArgCount : CompileErr
  | Unimplemented : CompileErr
  | InternalError : CompileErr

/-- Check that a type is the same as the expected type or one path never
returns (`CodeData::check_type`).  Failure carries the expected and the
found type, as the source's error message does. -/
def check_type (input expected : Ty) : Except CompileErr Unit :=
  if !(tyEq input .BottomType) && !(tyEq expected .BottomType)
      && !(tyEq input expected) then
    .error (.IncorrectType expected input)
  else
    .ok ()

/-- Address operands of loads and stores (`dlx::asm`): a constant
displacement or a yet-unresolved label. -/
inductive Addr where
  | Const : Int → Addr
  | Unknown : LabelId → Addr
deriving DecidableEq, Repr

/-- The symbolic instruction set, shaped by its use sites in `codegen.rs`
and the spec's output contract. -/
inductive Instruction where
  | Label : LabelId → Instruction
  | Store32 : Addr → RegId → RegId → Instruction
  | Load32 : RegId → Addr → RegId → Instruction
  | AddSigned : RegId → RegId → RegId → Instruction
  | AddSignedValue : RegId → RegId → Int → Instruction
  | AddUnsignedValue : RegId → RegId → Nat → Instruction
  | SubUnsignedValue : RegId → RegId → Nat → Instruction
  | Jump : LabelId → Instruction
  | JumpIfZero : RegId → LabelId → Instruction
  | JumpStore : LabelId → Instruction
  | JumpR : RegId → Instruction
  | Nop : Instruction
  | RawAsm : String → Instruction
  | AllocateWords : List Int → Instruction
  | AllocateSpace : Nat → Instruction
deriving DecidableEq, Repr

/-- Primitive type names of the surface language (`ast::PrimitiveType`). -/
inductive PrimitiveType where
  | IntType : PrimitiveType
  | BoolType : PrimitiveType
  | UnitType : PrimitiveType
  | BottomType : PrimitiveType
deriving DecidableEq, Repr

/-- Syntactic type references (`ast::Type`): a primitive name or a bare
identifier to be resolved through the scope chain. -/
inductive AstType where
  | Primitive : PrimitiveType → AstType
  | VariableType : String → AstType
deriving DecidableEq, Repr

/-- The type table built at the start of `codegen`: it maps exactly the four
primitive type names to their resolved types.  A lookup of any other
syntactic type panics in the source (`self.type_table[...]`), modelled by
`none`. -/
def type_table : AstType → Option Ty
  | .Primitive .IntType => some .Int
  | .Primitive .BoolType => some .Bool
  | .Primitive .UnitType => some .Unit
  | .Primitive .BottomType => some .BottomType
  | .VariableType _ => none

mutual
/-- Expression forms (`ast::Expr`), as consumed by `compile_expression`. -/
inductive Expr where
  | IfExpr : IfStatement → Expr
  | LoopExpr : LoopStatement → Expr
  | CallExpr : FunctionCall → Expr
  | Break : Expr
  | Return : Expression → Expr
  | LetExpr : LetStatement → Expr
  | AssignExpr : Assignment → Expr
  | VariableExpr : String → Expr
  | LitNumExpr : Int → Expr
  | AsmOpExpr : String → Expr
  | EmptyExpr : Expr

/-- An expression node: its form, its source span, and its result-type
annotation (read by `compile_call` and `compile_if` as `e.rtype`). -/
inductive Expression where
  | mk : Expr → InputSpan → AstType → Expression

/-- A block: its statement list and its result-type annotation
(read as `block.rtype()`). -/
inductive Block where
  | mk : List Expression → AstType → Block

/-- A conditional (`ast::IfStatement`). -/
inductive IfStatement where
  | mk : Expression → Block → Option Block → IfStatement

/-- A loop (`ast::LoopStatement`). -/
inductive LoopStatement where
  | mk : Block → LoopStatement

/-- A function call (`ast::FunctionCall`). -/
inductive FunctionCall where
  | mk : String → List Expression → InputSpan → FunctionCall

/-- A let binding (`ast::LetStatement`). -/
inductive LetStatement where
  | mk : String → AstType → Option Assignment → InputSpan → LetStatement

/-- An assignment (`ast::Assignment`). -/
inductive Assignment where
  | mk : String → Expression → InputSpan → Assignment
end

def Expression.expr : Expression → Expr
  | .mk e _ _ => e

def Expression.span : Expression → InputSpan
  | .mk _ s _ => s

def Expression.rtype : Expression → AstType
  | .mk _ _ t => t

def Block.statements : Block → List Expression
  | .mk ss _ => ss

def Block.rtype : Block → AstType
  | .mk _ t => t

def IfStatement.condition : IfStatement → Expression
  | .mk c _ _ => c

def IfStatement.body : IfStatement → Block
  | .mk _ b _ => b

def IfStatement.else_block : IfStatement → Option Block
  | .mk _ _ e => e

def LoopStatement.body : LoopStatement → Block
  | .mk b => b

def FunctionCall.name : FunctionCall → String
  | .mk n _ _ => n

def FunctionCall.args : FunctionCall → List Expression
  | .mk _ a _ => a

def FunctionCall.span : FunctionCall → InputSpan
  | .mk _ _ s => s

def LetStatement.name : LetStatement → String
  | .mk n _ _ _ => n

def LetStatement.var_type : LetStatement → AstType
  | .mk _ t _ _ => t

def LetStatement.assignment : LetStatement → Option Assignment
  | .mk _ _ a _ => a

def LetStatement.span : LetStatement → InputSpan
  | .mk _ _ _ s => s

def Assignment.target : Assignment → String
  | .mk t _ _ => t

def Assignment.expression : Assignment → Expression
  | .mk _ e _ => e

def Assignment.span : Assignment → InputSpan
  | .mk _ _ s => s

/-- A function declaration (`ast::FunctionDeclaration`): name, ordered
parameter list, return type reference, body, span. -/
structure FunctionDeclaration where
  name : String
  params : List (String × AstType)
  rtype : AstType
  body : Block
  span : InputSpan

/-- Storage locations (`enum Location`). -/
inductive Location where
  | Label : LabelId → Location
  | Offset : Int → Location
  | Register : RegId → Location
deriving Repr

/-- A registered function (`struct Function`): its declaration, resolved
argument types, resolved return type and entry label. -/
structure Function where
  ast : FunctionDeclaration
  arg_types : List Ty
  rtype : Ty
  location : LabelId

/-- A registered variable (`struct Variable`): its declaration, resolved
type and storage location. -/
structure Variable where
  ast : LetStatement
  rtype : Ty
  location : Location

/-- Tagged identifier references into a scope's function or variable list
(`enum IdentId`). -/
inductive IdentId where
  | FnIdentId : Nat → IdentId
  | VarIdentId : Nat → IdentId
deriving DecidableEq, Repr

/-- A resolved identifier (`enum Ident`). -/
inductive Ident where
  | FnIdent : Function → Ident
  | VarIdent : Variable → Ident

/-- The return type of the entity an identifier refers to
(`Ident::rtype`). -/
def Ident.rtype : Ident → Ty
  | .FnIdent f => f.rtype
  | .VarIdent v => v.rtype

/-- One lexical scope (`struct Scope`), without its parent pointer: the
parent chain is modelled as an explicit list alongside (see `Scopes`).
The name table is an association list standing in for the source's
`HashMap` (keys are unique because insertion happens only when absent). -/
structure ScopeData where
  functions : List Function
  vars : List Variable
  next_offset : Int
  ident_table : List (String × IdentId)
  loop_ends : List LabelId
  end_label : LabelId

/-- A fresh scope (`Scope::new`). The first available offset is 8: the first
8 bytes of a frame store the previous frame pointer and the return
location. -/
def ScopeData.new (end_label : LabelId) : ScopeData :=
  { functions := []
    vars := []
    next_offset := 8
    ident_table := []
    loop_ends := []
    end_label := end_label }

/-- The scope chain seen by the compile functions: the innermost (mutable)
scope together with its ancestors, outermost last.  The source passes
`&mut Scope` whose `parent` chain is immutable, which this pair mirrors. -/
abbrev Scopes := ScopeData × List ScopeData

/-- Name lookup in a single scope's table. -/
def findIdent (s : ScopeData) (name : String) : Option IdentId :=
  (s.ident_table.find? (fun p => p.1 == name)).map Prod.snd

/-- Add an identifier to the scope (`Scope::add_ident`): insert if absent;
if a different reference is already bound to the name, fail with the
shadowing error. -/
def add_ident (s : ScopeData) (name : String) (ident : IdentId) :
    Except CompileErr ScopeData :=
  match findIdent s name with
  | none => .ok { s with ident_table := (name, ident) :: s.ident_table }
  | some stored =>
      if stored = ident then .ok s else .error .IdentShadow

/-- Resolve an identifier reference inside the scope that owns it; an
out-of-range index is an internal error (a panicking `Vec` index in the
source). -/
def identOf (s : ScopeData) : IdentId → Except CompileErr Ident
  | .FnIdentId id =>
      match s.functions[id]? with
      | some f => .ok (.FnIdent f)
      | none => .error .InternalError
  | .VarIdentId id =>
      match s.vars[id]? with
      | some v => .ok (.VarIdent v)
      | none => .error .InternalError

/-- Walk a scope list looking for a name (`Scope::get_ident`'s recursion up
the parent chain); exhausting the chain is the identifier-not-found
error. -/
def get_ident_chain : List ScopeData → String → Except CompileErr Ident
  | [], name => .error (.IdentNotFound name)
  | s :: parents, name =>
      match findIdent s name with
      | some id => identOf s id
      | none => get_ident_chain parents name

/-- Lookup through the full chain, innermost scope first. -/
def get_ident (sc : Scopes) (name : String) : Except CompileErr Ident :=
  get_ident_chain (sc.1 :: sc.2) name

/-- Resolve unknown types and type aliases (`CodeData::resolve_type`):
a bare name resolves through the scope chain to the identifier's type;
everything else is looked up in the type table. -/
def resolve_type (sc : Scopes) (t : AstType) : Except CompileErr Ty :=
  match t with
  | .VariableType name => (get_ident sc name).map Ident.rtype
  | known =>
      match type_table known with
      | some ty => .ok ty
      | none => .error .InternalError

/-- The emitter state (`struct CodeData` without the logger): the ordered
instruction buffer and the label counter. -/
structure CodeData where
  instructions : List Instruction
  label_count : Nat

/-- Append one instruction to the output buffer. -/
def emit (d : CodeData) (i : Instruction) : CodeData :=
  { d with instructions := d.instructions ++ [i] }

/-- Generate a unique label (`CodeData::next_unique_label`): the prefix `L`
followed by the pre-increment counter value. -/
def next_unique_label (d : CodeData) : LabelId × CodeData :=
  ("L" ++ toString d.label_count, { d with label_count := d.label_count + 1 })

/-- Construct a variable (`Variable::new`): resolve its declared type
through the type table; the source's panicking `HashMap` index is an
internal error. -/
def Variable.new (ast : LetStatement) (location : Location) :
    Except CompileErr Variable :=
  match type_table ast.var_type with
  | none => .error .InternalError
  | some rtype => .ok ⟨ast, rtype, location⟩

/-- Check each call argument's type against the declared parameter type
(the `zip` loop of `compile_call`). -/
def check_arg_types : List (Ty × Ty) → Except CompileErr Unit
  | [] => .ok ()
  | (call_arg, fn_arg) :: rest =>
      match check_type call_arg fn_arg with
      | .error err => .error err
      | .ok () => check_arg_types rest

mutual

/-- Compile one statement or expression (`CodeData::compile_expression`).
Error propagation out of a sub-step (`Except.bind`) models the source's
abort-on-failure; the failing sub-step's error is the abort cause. -/
def compile_expression (d : CodeData) (sc : Scopes) (e : Expression) :
    Except CompileErr (CodeData × Scopes) :=
  match e with
  | .mk expr span _ =>
    match expr with
    | .IfExpr inner => compile_if d sc inner
    | .LoopExpr inner => compile_loop d sc inner
    | .CallExpr inner => compile_call d sc inner
    | .LetExpr inner => compile_let d sc inner
    | .AssignExpr inner => compile_assign d sc inner
    | .Break =>
        match sc.1.loop_ends with
        | label :: _ => .ok (emit d (.Jump label), sc)
        | [] => .error (.Reported "`break` outside of loop" span)
    | .Return inner =>
        Except.bind (compile_expression d sc inner) fun r =>
          let return_label := r.2.1.end_label
          .ok (emit r.1 (.Jump return_label), r.2)
    | .VariableExpr name =>
        Except.bind (get_ident sc name) fun ident =>
          match ident with
          | .FnIdent _ => .error .InternalError
          | .VarIdent ident =>
            match ident.location with
            | .Label label =>
                .ok (emit d (.Load32 RESULT_REG (.Unknown label) ZERO_REG), sc)
            | .Offset amount =>
                .ok (emit d (.Load32 RESULT_REG (.Const amount) FRAME_POINTER), sc)
            | .Register id =>
                .ok (emit d (.AddSigned RESULT_REG id ZERO_REG), sc)
    | .LitNumExpr value =>
        .ok (emit d (.AddSignedValue RESULT_REG ZERO_REG (toSigned16 value)), sc)
    | .AsmOpExpr inner => .ok (emit d (.RawAsm inner), sc)
    | .EmptyExpr => .ok (d, sc)
termination_by structural e

/-- Compile a conditional (`CodeData::compile_if`).  The source resolves the
else block through two matches on `else_block`; here the two shapes are
split at the top pattern.  With no else block the end label is the else
label and no second label is drawn. -/
def compile_if (d : CodeData) (sc : Scopes) (if_statement : IfStatement) :
    Except CompileErr (CodeData × Scopes) :=
  match if_statement with
  | .mk condition (.mk body_stmts body_rt) none =>
      Except.bind (resolve_type sc condition.rtype) fun cond_type =>
      Except.bind (check_type cond_type .Bool) fun _ =>
      Except.bind (compile_expression d sc condition) fun rc =>
        let p1 := next_unique_label rc.1
        let else_label := p1.1
        let d := emit p1.2 (.JumpIfZero RESULT_REG else_label)
        Except.bind (compile_statements d rc.2 body_stmts) fun rb =>
        Except.bind (resolve_type rb.2 body_rt) fun then_rtype =>
        Except.bind (check_type then_rtype .Unit) fun _ =>
          .ok (emit rb.1 (.Label else_label), rb.2)
  | .mk condition (.mk body_stmts body_rt) (some (.mk else_stmts else_rt)) =>
      Except.bind (resolve_type sc condition.rtype) fun cond_type =>
      Except.bind (check_type cond_type .Bool) fun _ =>
      Except.bind (compile_expression d sc condition) fun rc =>
        let p1 := next_unique_label rc.1
        let else_label := p1.1
        let p2 := next_unique_label p1.2
        let end_label := p2.1
        let d := emit p2.2 (.JumpIfZero RESULT_REG else_label)
        Except.bind (compile_statements d rc.2 body_stmts) fun rb =>
        Except.bind (resolve_type rb.2 body_rt) fun then_rtype =>
        Except.bind (resolve_type rb.2 else_rt) fun else_rtype =>
        Except.bind (check_type else_rtype then_rtype) fun _ =>
          let d := emit rb.1 (.Jump end_label)
          let d := emit d (.Label else_label)
          Except.bind (compile_statements d rb.2 else_stmts) fun re =>
            .ok (emit re.1 (.Label end_label), re.2)
termination_by structural if_statement

/-- Compile a loop (`CodeData::compile_loop`).  The innermost loop-end label
is the head of `loop_ends`. -/
def compile_loop (d : CodeData) (sc : Scopes) (loop_statement : LoopStatement) :
    Except CompileErr (CodeData × Scopes) :=
  match loop_statement with
  | .mk (.mk body_stmts body_rt) =>
      Except.bind (resolve_type sc body_rt) fun body_rtype =>
      Except.bind (check_type body_rtype .Unit) fun _ =>
        let p1 := next_unique_label d
        let start_label := p1.1
        let d := emit p1.2 (.Label start_label)
        let p2 := next_unique_label d
        let end_label := p2.1
        let sc : Scopes := ({ sc.1 with loop_ends := end_label :: sc.1.loop_ends }, sc.2)
        Except.bind (compile_statements p2.2 sc body_stmts) fun rb =>
          let d := emit rb.1 (.Jump start_label)
          match rb.2.1.loop_ends with
          | [] => .error .InternalError
          | popped :: rest =>
              .ok (emit d (.Label popped), ({ rb.2.1 with loop_ends := rest }, rb.2.2))
termination_by structural loop_statement

/-- Compile the argument list of a call: the per-argument loop of
`compile_call`, returning the resolved argument types and the accumulated
`stack_offset` (the sum of the argument types' sizes). -/
def compile_call_args (d : CodeData) (sc : Scopes) (args : List Expression) :
    Except CompileErr (CodeData × Scopes × List Ty × Nat) :=
  match args with
  | [] => .ok (d, sc, [], 0)
  | arg :: rest =>
      Except.bind (resolve_type sc arg.rtype) fun arg_type =>
        let arg_size := arg_type.size
        Except.bind (compile_expression d sc arg) fun ra =>
          let d := emit ra.1 (.Store32 (.Const 0) STACK_POINTER RESULT_REG)
          let d := emit d (.AddUnsignedValue STACK_POINTER STACK_POINTER 4)
          Except.bind (compile_call_args d ra.2 rest) fun rr =>
            .ok (rr.1, rr.2.1, arg_type :: rr.2.2.1, arg_size + rr.2.2.2)
termination_by structural args

/-- Compile a function call (`CodeData::compile_call`).  The restore
instruction's operand is the accumulated `stack_offset` cast `as u16`. -/
def compile_call (d : CodeData) (sc : Scopes) (call : FunctionCall) :
    Except CompileErr (CodeData × Scopes) :=
  match call with
  | .mk name args _ =>
    Except.bind (compile_call_args d sc args) fun rr =>
      let d := rr.1
      let sc := rr.2.1
      let call_args := rr.2.2.1
      let stack_offset := rr.2.2.2
      Except.bind (get_ident sc name) fun ident =>
        match ident with
        | .VarIdent _ => .error .ExpectedFunction
        | .FnIdent func =>
          if call_args.length ≠ func.arg_types.length then
            .error .IncorrectArgCount
          else
            Except.bind (check_arg_types (call_args.zip func.arg_types)) fun _ =>
              let d := emit d (.JumpStore func.location)
              let d := emit d (.SubUnsignedValue STACK_POINTER STACK_POINTER
                          (stack_offset % 65536))
              .ok (d, sc)
termination_by structural call

/-- Compile a let binding (`CodeData::compile_let`): register the
identifier, allocate the next frame offset, advance the offset counter by
the variable's size (an `i16` addition), then compile the optional
initializing assignment. -/
def compile_let (d : CodeData) (sc : Scopes) (let_statement : LetStatement) :
    Except CompileErr (CodeData × Scopes) :=
  match let_statement with
  | .mk name var_type assignment span =>
    let id := IdentId.VarIdentId sc.1.vars.length
    Except.bind (add_ident sc.1 name id) fun s1 =>
      Except.bind (Variable.new (.mk name var_type assignment span)
          (.Offset s1.next_offset)) fun var =>
        let s1 := { s1 with
          next_offset := addI16 s1.next_offset (toSigned16 var.rtype.size)
          vars := s1.vars ++ [var] }
        let sc : Scopes := (s1, sc.2)
        match assignment with
        | some a => compile_assign d sc a
        | none => .ok (d, sc)
termination_by structural let_statement

/-- Compile an assignment (`CodeData::compile_assign`): resolve the target
(must be a variable), compile the right-hand side, store the result
register into the target's location. -/
def compile_assign (d : CodeData) (sc : Scopes) (assignment : Assignment) :
    Except CompileErr (CodeData × Scopes) :=
  match assignment with
  | .mk target expression _ =>
    Except.bind (get_ident sc target) fun tident =>
      match tident with
      | .FnIdent _ => .error .ExpectedVariable
      | .VarIdent ident =>
        let target_location := ident.location
        Except.bind (compile_expression d sc expression) fun re =>
          match target_location with
          | .Label label =>
              .ok (emit re.1 (.Store32 (.Unknown label) ZERO_REG RESULT_REG), re.2)
          | .Offset amount =>
              .ok (emit re.1 (.Store32 (.Const amount) FRAME_POINTER RESULT_REG), re.2)
          | .Register id =>
              .ok (emit re.1 (.AddSigned id RESULT_REG ZERO_REG), re.2)
termination_by structural assignment

/-- Compile a statement sequence (`CodeData::compile_block`'s loop). -/
def compile_statements (d : CodeData) (sc : Scopes) (stmts : List Expression) :
    Except CompileErr (CodeData × Scopes) :=
  match stmts with
  | [] => .ok (d, sc)
  | s :: rest =>
      Except.bind (compile_expression d sc s) fun rs =>
        compile_statements rs.1 rs.2 rest
termination_by structural stmts

end

/-- Compile a block (`CodeData::compile_block`). -/
def compile_block (d : CodeData) (sc : Scopes) (block : Block) :
    Except CompileErr (CodeData × Scopes) :=
  compile_statements d sc block.statements

/-- Bind the function parameters as local variables: the reversed-parameter
loop of `compile_global_fn`.  `next_param_addr` is a `u32` starting at 0;
each parameter is bound at `Offset(next_param_addr as i16)` and the counter
then wraps downward by the parameter's size. -/
def bind_params (span : InputSpan) (ps : List (String × AstType))
    (next_param_addr : Nat) (scope : ScopeData) :
    Except CompileErr (ScopeData × Nat) :=
  match ps with
  | [] => .ok (scope, next_param_addr)
  | (name, var_type) :: rest =>
    match Variable.new (.mk name var_type none span)
        (.Offset (toSigned16 next_param_addr)) with
    | .error err => .error err
    | .ok var =>
      let next := wrapSub32 next_param_addr var.rtype.size
      let id := IdentId.VarIdentId scope.vars.length
      match add_ident scope name id with
      | .error err => .error err
      | .ok scope =>
          bind_params span rest next { scope with vars := scope.vars ++ [var] }

/-- Compile a global function (`CodeData::compile_global_fn`): label,
prologue, parameter binding, `Nop` placeholder, body, frame-size patch,
end label, epilogue. -/
def compile_global_fn (d : CodeData) (global : ScopeData) (fn_id : Nat) :
    Except CompileErr CodeData :=
  match global.functions[fn_id]? with
  | none => .error .InternalError
  | some func =>
    let label := func.location
    let span := func.ast.span
    let d := emit d (.Label label)
    let d := emit d (.Store32 (.Const 0) STACK_POINTER FRAME_POINTER)
    let d := emit d (.AddSigned FRAME_POINTER STACK_POINTER ZERO_REG)
    let d := emit d (.Store32 (.Const 4) FRAME_POINTER RETURN_REG)
    let p1 := next_unique_label d
    let end_label := p1.1
    let d := p1.2
    let scope := ScopeData.new end_label
    match bind_params span func.ast.params.reverse 0 scope with
    | .error err => .error err
    | .ok (scope, _) =>
      let reserve_stack_index := d.instructions.length
      let d := emit d .Nop
      match compile_block d (scope, [global]) func.ast.body with
      | .error err => .error err
      | .ok (d, sc) =>
        let frame_size := sc.1.next_offset
        let patched := d.instructions.set reserve_stack_index
          (.AddSignedValue STACK_POINTER STACK_POINTER frame_size)
        let d := { d with instructions := patched }
        let d := emit d (.Label sc.1.end_label)
        let d := emit d (.Load32 RETURN_REG (.Const 4) FRAME_POINTER)
        let d := emit d (.AddSigned STACK_POINTER FRAME_POINTER ZERO_REG)
        let d := emit d (.Load32 FRAME_POINTER (.Const 0) STACK_POINTER)
        .ok (emit d (.JumpR RETURN_REG))

/-- Compile a global variable (`CodeData::compile_global_var`): its label,
then either a literal initializer as a full 32-bit word (`n as i32`), or
reserved space sized by its primitive type; anything else is
unimplemented, and a non-label location is an internal error. -/
def compile_global_var (d : CodeData) (global : ScopeData) (var_id : Nat) :
    Except CompileErr CodeData :=
  match global.vars[var_id]? with
  | none => .error .InternalError
  | some var =>
    match var.location with
    | .Offset _ => .error .InternalError
    | .Register _ => .error .InternalError
    | .Label label =>
      let d := emit d (.Label label)
      match var.ast.assignment with
      | some expr =>
          match expr.expression.expr with
          | .LitNumExpr n => .ok (emit d (.AllocateWords [toSigned32 n]))
          | _ => .error .Unimplemented
      | none =>
          match var.ast.var_type with
          | .Primitive t =>
              match type_table (.Primitive t) with
              | some ty => .ok (emit d (.AllocateSpace ty.size))
              | none => .error .InternalError
          | _ => .error .Unimplemented

mutual
/-- The frame sizes (after the source's `as i16` cast) of the let bindings a
statement registers, in the order `compile_expression` registers them. -/
def letSizesE : Expression → List Int
  | .mk e _ _ => letSizesX e

/-- Let sizes registered by an expression form. -/
def letSizesX : Expr → List Int
  | .IfExpr i => letSizesIf i
  | .LoopExpr l => letSizesLoop l
  | .CallExpr c => letSizesCall c
  | .Break => []
  | .Return inner => letSizesE inner
  | .LetExpr l => letSizesLet l
  | .AssignExpr a => letSizesA a
  | .VariableExpr _ => []
  | .LitNumExpr _ => []
  | .AsmOpExpr _ => []
  | .EmptyExpr => []

/-- Let sizes registered by a conditional: condition, then block, else
block, in compilation order. -/
def letSizesIf : IfStatement → List Int
  | .mk cond (.mk body _) els =>
      letSizesE cond ++ letSizesL body ++
        (match els with
         | some (Block.mk bs _) => letSizesL bs
         | none => [])

/-- Let sizes registered by a loop body. -/
def letSizesLoop : LoopStatement → List Int
  | .mk (.mk body _) => letSizesL body

/-- Let sizes registered by a call's arguments. -/
def letSizesCall : FunctionCall → List Int
  | .mk _ args _ => letSizesL args

/-- Let sizes registered by a let binding: the binding itself, then its
initializer. -/
def letSizesLet : LetStatement → List Int
  | .mk _ var_type assignment _ =>
      (match type_table var_type with
       | some ty => [toSigned16 ty.size]
       | none => []) ++
      (match assignment with
       | some a => letSizesA a
       | none => [])

/-- Let sizes registered by an assignment's right-hand side. -/
def letSizesA : Assignment → List Int
  | .mk _ e _ => letSizesE e

/-- Let sizes registered by a statement sequence. -/
def letSizesL : List Expression → List Int
  | [] => []
  | e :: rest => letSizesE e ++ letSizesL rest
end

/-- The output buffer only grows: `d'` extends `d`. -/
def Extends (d d' : CodeData) : Prop :=
  ∃ tail, d'.instructions = d.instructions ++ tail

/-- What one compile step does to the innermost scope: the offset counter
advances by the sizes of the lets registered (with `i16` wrap), while the
end label, the loop-end stack and the parent chain are untouched. -/
def ScStep (sc sc' : Scopes) (sizes : List Int) : Prop :=
  sc'.1.next_offset = List.foldl addI16 sc.1.next_offset sizes ∧
  sc'.1.end_label = sc.1.end_label ∧
  sc'.1.loop_ends = sc.1.loop_ends ∧
  sc'.2 = sc.2

/-- Top-level items (`ast::Item`); the struct payload is irrelevant because
struct items are rejected as unimplemented. -/
inductive Item where
  | FunctionItem : FunctionDeclaration → Item
  | StructItem : String → Item
  | LetItem : LetStatement → Item

/-- A program (`ast::Program`): an ordered item list. -/
structure Program where
  items : List Item

/-- Construct a registered function (`Function::new`): resolve parameter and
return types through the type table. -/
def Function.new (ast : FunctionDeclaration) (location : LabelId) :
    Except CompileErr Function :=
  match ast.params.mapM (fun param => type_table param.2) with
  | none => .error .InternalError
  | some arg_types =>
    match type_table ast.rtype with
    | none => .error .InternalError
    | some rtype => .ok ⟨ast, arg_types, rtype, location⟩

/-- Register the top-level items into the global scope (the first loop of
`codegen`): every item draws a fresh label first; functions and global lets
are bound by name, structs are rejected as unimplemented. -/
def register_items (global : ScopeData) (d : CodeData) (items : List Item) :
    Except CompileErr (ScopeData × CodeData) :=
  match items with
  | [] => .ok (global, d)
  | item :: rest =>
    let p1 := next_unique_label d
    let location := p1.1
    let d := p1.2
    match item with
    | .FunctionItem fn_item =>
        let id := IdentId.FnIdentId global.functions.length
        match add_ident global fn_item.name id with
        | .error err => .error err
        | .ok global =>
          match Function.new fn_item location with
          | .error err => .error err
          | .ok f =>
              register_items { global with functions := global.functions ++ [f] } d rest
    | .StructItem _ => .error .Unimplemented
    | .LetItem let_item =>
        let id := IdentId.VarIdentId global.vars.length
        match add_ident global let_item.name id with
        | .error err => .error err
        | .ok global =>
          match Variable.new let_item (.Label location) with
          | .error err => .error err
          | .ok v =>
              register_items { global with vars := global.vars ++ [v] } d rest

/-- Compile every global variable, by index (the second loop of `codegen`). -/
def compile_all_vars (global : ScopeData) (d : CodeData) (ids : List Nat) :
    Except CompileErr CodeData :=
  match ids with
  | [] => .ok d
  | i :: rest =>
      match compile_global_var d global i with
      | .error err => .error err
      | .ok d => compile_all_vars global d rest

/-- Compile every global function, by index (the third loop of `codegen`). -/
def compile_all_fns (global : ScopeData) (d : CodeData) (ids : List Nat) :
    Except CompileErr CodeData :=
  match ids with
  | [] => .ok d
  | i :: rest =>
      match compile_global_fn d global i with
      | .error err => .error err
      | .ok d => compile_all_fns global d rest

/-- Whole-program code generation (`codegen`): build the global scope with
end label `exit`, register all items, compile the global variables, then
the functions, and return the instruction buffer. -/
def codegen (program : Program) : Except CompileErr (List Instruction) :=
  let global := ScopeData.new "exit"
  let d : CodeData := ⟨[], 0⟩
  match register_items global d program.items with
  | .error err => .error err
  | .ok (global, d) =>
    match compile_all_vars global d (List.range global.vars.length) with
    | .error err => .error err
    | .ok d =>
      match compile_all_fns global d (List.range global.functions.length) with
      | .error err => .error err
      | .ok d => .ok d.instructions

/-- A type is composite-free when no `Composite` occurs along its
constructor spine; on such types the source's equality is purely
structural. -/
def compositeFree : Ty → Bool
  | .Bool => true
  | .Int => true
  | .Unit => true
  | .BottomType => true
  | .Array t _ => compositeFree t
  | .Pointer t => compositeFree t
  | .Composite _ _ _ => false

/-- A fixed sample span for the concrete example programs. -/
def sp0 : InputSpan := ⟨3, 9⟩

/-- Declaration of `fn main() -> () { let x: Int = 5; return; }`. -/
def mainDecl : FunctionDeclaration :=
  { name := "main"
    params := []
    rtype := .Primitive .UnitType
    body := .mk
      [ .mk (.LetExpr (.mk "x" (.Primitive .IntType)
          (some (.mk "x" (.mk (.LitNumExpr 5) sp0 (.Primitive .IntType)) sp0)) sp0))
          sp0 (.Primitive .UnitType)
      , .mk (.Return (.mk .EmptyExpr sp0 (.Primitive .UnitType)))
          sp0 (.Primitive .BottomType) ]
      (.Primitive .BottomType)
    span := sp0 }

/-- The end-to-end example program holding only `mainDecl`. -/
def mainProgram : Program := ⟨[.FunctionItem mainDecl]⟩

/-- The registered form of `mainDecl` at entry label `L0`. -/
def mainFunction : Function :=
  { ast := mainDecl
    arg_types := []
    rtype := .Unit
    location := "L0" }

/-- A global scope binding only `main`, as `codegen` registers it. -/
def scopeWithMain : ScopeData :=
  { functions := [mainFunction]
    vars := []
    next_offset := 8
    ident_table := [("main", .FnIdentId 0)]
    loop_ends := []
    end_label := "exit" }

/-- Declaration of a function `fn f(x: ()) -> ()` taking one unit-typed
parameter. -/
def fUnitDecl : FunctionDeclaration :=
  { name := "f"
    params := [("x", .Primitive .UnitType)]
    rtype := .Primitive .UnitType
    body := .mk [] (.Primitive .UnitType)
    span := sp0 }

/-- The registered form of `fUnitDecl` at entry label `L0`. -/
def fUnitFunction : Function :=
  { ast := fUnitDecl
    arg_types := [.Unit]
    rtype := .Unit
    location := "L0" }

/-- A global scope binding only `f`, as `codegen` would register it. -/
def scopeWithFUnit : ScopeData :=
  { functions := [fUnitFunction]
    vars := []
    next_offset := 8
    ident_table := [("f", .FnIdentId 0)]
    loop_ends := []
    end_label := "exit" }

/-- The call `f(e)` where `e` is an empty expression of annotated type `()`
(for instance the result position of a unit-returning call). -/
def callFUnit : FunctionCall :=
  .mk "f" [.mk .EmptyExpr sp0 (.Primitive .UnitType)] sp0

/-- A conditional with no else branch whose then-block has result type `!`:
`if cond { ...diverging body... }`. -/
def bottomIf : IfStatement :=
  .mk (.mk .EmptyExpr sp0 (.Primitive .BoolType))
      (.mk [] (.Primitive .BottomType)) none

/-- Two `let x: Int;` statements in a row, for the same-scope shadowing
example. -/
def dupLets : List Expression :=
  [ .mk (.LetExpr (.mk "x" (.Primitive .IntType) none sp0)) sp0 (.Primitive .UnitType)
  , .mk (.LetExpr (.mk "x" (.Primitive .IntType) none sp0)) sp0 (.Primitive .UnitType) ]

/-- The code `compile_global_fn` produces for `mainDecl` from an empty
buffer whose label counter has already consumed `L0`. -/
def mainCompiled : CodeData :=
  ⟨[ .Label "L0"
   , .Store32 (.Const 0) STACK_POINTER FRAME_POINTER
   , .AddSigned FRAME_POINTER STACK_POINTER ZERO_REG
   , .Store32 (.Const 4) FRAME_POINTER RETURN_REG
   , .AddSignedValue STACK_POINTER STACK_POINTER 12
   , .AddSignedValue RESULT_REG ZERO_REG 5
   , .Store32 (.Const 8) FRAME_POINTER RESULT_REG
   , .Jump "L1"
   , .Label "L1"
   , .Load32 RETURN_REG (.Const 4) FRAME_POINTER
   , .AddSigned STACK_POINTER FRAME_POINTER ZERO_REG
   , .Load32 FRAME_POINTER (.Const 0) STACK_POINTER
   , .JumpR RETURN_REG ], 2⟩

/-- Declaration of `fn g(x: Int, y: Int) -> ()`. -/
def gIntsDecl : FunctionDeclaration :=
  { name := "g"
    params := [("x", .Primitive .IntType), ("y", .Primitive .IntType)]
    rtype := .Primitive .UnitType
    body := .mk [] (.Primitive .UnitType)
    span := sp0 }

/-- The registered form of `gIntsDecl` at entry label `L0`. -/
def gIntsFunction : Function :=
  { ast := gIntsDecl
    arg_types := [.Int, .Int]
    rtype := .Unit
    location := "L0" }

/-- A global scope binding only `g`. -/
def scopeWithGInts : ScopeData :=
  { functions := [gIntsFunction]
    vars := []
    next_offset := 8
    ident_table := [("g", .FnIdentId 0)]
    loop_ends := []
    end_label := "exit" }

/-- The two word-sized argument expressions of the call `g(1, 2)`. -/
def gIntsArgs : List Expression :=
  [.mk (.LitNumExpr 1) sp0 (.Primitive .IntType),
   .mk (.LitNumExpr 2) sp0 (.Primitive .IntType)]

/-- Size-bounded form of the compile invariants, one per compile function,
used for the strong induction over the mutually recursive compilers:
successful compilation only appends instructions, and the innermost
scope's offset counter advances by exactly the registered let sizes. -/
def InvE (n : Nat) : Prop :=
  ∀ (d : CodeData) (sc : Scopes) (e : Expression) (r : CodeData × Scopes),
    sizeOf e ≤ n → compile_expression d sc e = .ok r →
    Extends d r.1 ∧ ScStep sc r.2 (letSizesE e)

/-- Size-bounded invariant of `compile_assign` (see `InvE`). -/
def InvA (n : Nat) : Prop :=
  ∀ (d : CodeData) (sc : Scopes) (a : Assignment) (r : CodeData × Scopes),
    sizeOf a ≤ n → compile_assign d sc a = .ok r →
    Extends d r.1 ∧ ScStep sc r.2 (letSizesA a)

/-- Size-bounded invariant of `compile_let` (see `InvE`). -/
def InvLet (n : Nat) : Prop :=
  ∀ (d : CodeData) (sc : Scopes) (l : LetStatement) (r : CodeData × Scopes),
    sizeOf l ≤ n → compile_let d sc l = .ok r →
    Extends d r.1 ∧ ScStep sc r.2 (letSizesLet l)

/-- Size-bounded invariant of `compile_call` (see `InvE`). -/
def InvCall (n : Nat) : Prop :=
  ∀ (d : CodeData) (sc : Scopes) (c : FunctionCall) (r : CodeData × Scopes),
    sizeOf c ≤ n → compile_call d sc c = .ok r →
    Extends d r.1 ∧ ScStep sc r.2 (letSizesCall c)

/-- Size-bounded invariant of `compile_call_args` (see `InvE`). -/
def InvArgs (n : Nat) : Prop :=
  ∀ (d : CodeData) (sc : Scopes) (args : List Expression)
    (r : CodeData × Scopes × List Ty × Nat),
    sizeOf args ≤ n → compile_call_args d sc args = .ok r →
    Extends d r.1 ∧ ScStep sc r.2.1 (letSizesL args)

/-- Size-bounded invariant of `compile_loop` (see `InvE`). -/
def InvLoop (n : Nat) : Prop :=
  ∀ (d : CodeData) (sc : Scopes) (l : LoopStatement) (r : CodeData × Scopes),
    sizeOf l ≤ n → compile_loop d sc l = .ok r →
    Extends d r.1 ∧ ScStep sc r.2 (letSizesLoop l)

/-- Size-bounded invariant of `compile_statements` (see `InvE`). -/
def InvStmts (n : Nat) : Prop :=
  ∀ (d : CodeData) (sc : Scopes) (stmts : List Expression) (r : CodeData × Scopes),
    sizeOf stmts ≤ n → compile_statements d sc stmts = .ok r →
    Extends d r.1 ∧ ScStep sc r.2 (letSizesL stmts)

/-- Size-bounded invariant of `compile_if` (see `InvE`). -/
def InvIf (n : Nat) : Prop :=
  ∀ (d : CodeData) (sc : Scopes) (i : IfStatement) (r : CodeData × Scopes),
    sizeOf i ≤ n → compile_if d sc i = .ok r →
    Extends d r.1 ∧ ScStep sc r.2 (letSizesIf i)

/-! From here on, theorems.  First the bookkeeping lemmas about the compile
functions (append-only emission and offset-counter accounting), then the
theorems settling the specification claims. -/

theorem extendsRefl (d : CodeData) : Extends d d := ⟨[], (List.append_nil _).symm⟩

theorem extendsTrans {a b c : CodeData} (h1 : Extends a b) (h2 : Extends b c) :
    Extends a c := by
  obtain ⟨t1, h1⟩ := h1
  obtain ⟨t2, h2⟩ := h2
  exact ⟨t1 ++ t2, by rw [h2, h1, List.append_assoc]⟩

theorem extendsEmit (d : CodeData) (i : Instruction) : Extends d (emit d i) :=
  ⟨[i], rfl⟩

theorem scStepRefl (sc : Scopes) : ScStep sc sc [] := ⟨rfl, rfl, rfl, rfl⟩

theorem scStepTrans {a b c : Scopes} {s1 s2 : List Int}
    (h1 : ScStep a b s1) (h2 : ScStep b c s2) : ScStep a c (s1 ++ s2) := by
  obtain ⟨o1, e1, l1, p1⟩ := h1
  obtain ⟨o2, e2, l2, p2⟩ := h2
  refine ⟨?_, e2.trans e1, l2.trans l1, p2.trans p1⟩
  rw [o2, o1, List.foldl_append]

/-- Elimination form for successful `Except.bind`: the first stage succeeded
and the continuation succeeded on its result. -/
theorem bind_ok {α β : Type} {x : Except CompileErr α} {f : α → Except CompileErr β}
    {b : β} (h : Except.bind x f = .ok b) : ∃ a, x = .ok a ∧ f a = .ok b := by
  cases x with
  | error e => exact Except.noConfusion h
  | ok a => exact ⟨a, rfl, h⟩

/-- The joint bookkeeping invariant of all eight compile functions, by
strong induction on the size of the statement being compiled. -/
theorem inv_below : ∀ n : Nat, InvE n ∧ InvA n ∧ InvLet n ∧ InvCall n ∧
    InvArgs n ∧ InvLoop n ∧ InvStmts n ∧ InvIf n := by
  intro n
  induction n using Nat.strong_induction_on with
  | _ n ih =>
    refine ⟨?_, ?_, ?_, ?_, ?_, ?_, ?_, ?_⟩
    -- InvE
    · intro d sc e r hsz h
      obtain ⟨expr, span, rt⟩ := e
      cases expr with
      | IfExpr inner =>
          have hlt : sizeOf inner < n := by simp at hsz; omega
          have := (ih _ hlt).2.2.2.2.2.2.2 d sc inner r (le_refl _)
            (by rw [compile_expression] at h; exact h)
          simpa [letSizesE, letSizesX] using this
      | LoopExpr inner =>
          have hlt : sizeOf inner < n := by simp at hsz; omega
          have := (ih _ hlt).2.2.2.2.2.1 d sc inner r (le_refl _)
            (by rw [compile_expression] at h; exact h)
          simpa [letSizesE, letSizesX] using this
      | CallExpr inner =>
          have hlt : sizeOf inner < n := by simp at hsz; omega
          have := (ih _ hlt).2.2.2.1 d sc inner r (le_refl _)
            (by rw [compile_expression] at h; exact h)
          simpa [letSizesE, letSizesX] using this
      | LetExpr inner =>
          have hlt : sizeOf inner < n := by simp at hsz; omega
          have := (ih _ hlt).2.2.1 d sc inner r (le_refl _)
            (by rw [compile_expression] at h; exact h)
          simpa [letSizesE, letSizesX] using this
      | AssignExpr inner =>
          have hlt : sizeOf inner < n := by simp at hsz; omega
          have := (ih _ hlt).2.1 d sc inner r (le_refl _)
            (by rw [compile_expression] at h; exact h)
          simpa [letSizesE, letSizesX] using this
      | Break =>
          rw [compile_expression] at h
          split at h
          next label tail heq =>
            injection h with h
            subst h
            exact ⟨extendsEmit d _, by simpa [letSizesE, letSizesX] using scStepRefl sc⟩
          next heq => exact Except.noConfusion h
      | Return inner =>
          rw [compile_expression] at h
          obtain ⟨r1, hr1, h⟩ := bind_ok h
          injection h with h
          subst h
          have hlt : sizeOf inner < n := by simp at hsz; omega
          have ih1 := (ih _ hlt).1 d sc inner r1 (le_refl _) hr1
          exact ⟨extendsTrans ih1.1 (extendsEmit r1.1 _),
            by simpa [letSizesE, letSizesX] using ih1.2⟩
      | VariableExpr name =>
          rw [compile_expression] at h
          obtain ⟨ident, hident, h⟩ := bind_ok h
          split at h
          next => exact Except.noConfusion h
          next v =>
            split at h <;>
              (injection h with h; subst h;
               exact ⟨extendsEmit d _,
                 by simpa [letSizesE, letSizesX] using scStepRefl sc⟩)
      | LitNumExpr v =>
          rw [compile_expression] at h
          injection h with h
          subst h
          exact ⟨extendsEmit d _, by simpa [letSizesE, letSizesX] using scStepRefl sc⟩
      | AsmOpExpr s =>
          rw [compile_expression] at h
          injection h with h
          subst h
          exact ⟨extendsEmit d _, by simpa [letSizesE, letSizesX] using scStepRefl sc⟩
      | EmptyExpr =>
          rw [compile_expression] at h
          injection h with h
          subst h
          exact ⟨extendsRefl d, by simpa [letSizesE, letSizesX] using scStepRefl sc⟩
    -- InvA
    · intro d sc a r hsz h
      obtain ⟨target, expression, span⟩ := a
      rw [compile_assign] at h
      obtain ⟨tident, htident, h⟩ := bind_ok h
      split at h
      next => exact Except.noConfusion h
      next v =>
        obtain ⟨re, hre, h⟩ := bind_ok h
        have hlt : sizeOf expression < n := by simp at hsz; omega
        have ih1 := (ih _ hlt).1 d sc expression re (le_refl _) hre
        split at h <;>
          (injection h with h; subst h;
           exact ⟨extendsTrans ih1.1 (extendsEmit re.1 _),
             by simpa [letSizesA] using ih1.2⟩)
    -- InvLet
    · intro d sc l r hsz h
      obtain ⟨name, var_type, assignment, span⟩ := l
      rw [compile_let] at h
      obtain ⟨s1, hs1, h⟩ := bind_ok h
      obtain ⟨var, hvar, h⟩ := bind_ok h
      have hs1f : s1.next_offset = sc.1.next_offset ∧ s1.end_label = sc.1.end_label ∧
          s1.loop_ends = sc.1.loop_ends := by
        simp only [add_ident] at hs1
        split at hs1
        next =>
          injection hs1 with hs1
          subst hs1
          exact ⟨rfl, rfl, rfl⟩
        next =>
          split at hs1
          next =>
            injection hs1 with hs1
            subst hs1
            exact ⟨rfl, rfl, rfl⟩
          next => exact Except.noConfusion hs1
      have hvt : ∃ ty, type_table var_type = some ty ∧ var.rtype = ty := by
        simp only [Variable.new] at hvar
        split at hvar
        next => exact Except.noConfusion hvar
        next ty heqty =>
          injection hvar with hvar
          subst hvar
          exact ⟨ty, heqty, rfl⟩
      obtain ⟨ty, hty, hvr⟩ := hvt
      have step1 : ScStep sc ({ s1 with
          next_offset := addI16 s1.next_offset (toSigned16 var.rtype.size)
          vars := s1.vars ++ [var] }, sc.2) [toSigned16 ty.size] := by
        refine ⟨?_, hs1f.2.1, hs1f.2.2, rfl⟩
        simp [hs1f.1, hvr]
      cases assignment with
      | none =>
        injection h with h
        subst h
        have hsz2 : letSizesLet (.mk name var_type none span) = [toSigned16 ty.size] := by
          simp [letSizesLet, hty]
        rw [hsz2]
        exact ⟨extendsRefl d, by simpa using step1⟩
      | some a =>
        have hlt : sizeOf a < n := by simp at hsz; omega
        have iha := (ih _ hlt).2.1 d _ a r (le_refl _) h
        have hsz2 : letSizesLet (.mk name var_type (some a) span) =
            [toSigned16 ty.size] ++ letSizesA a := by
          simp [letSizesLet, hty]
        rw [hsz2]
        exact ⟨iha.1, by simpa using scStepTrans step1 iha.2⟩
    -- InvCall
    · intro d sc c r hsz h
      obtain ⟨name, args, cspan⟩ := c
      rw [compile_call] at h
      obtain ⟨rr, hrr, h⟩ := bind_ok h
      obtain ⟨ident, hident, h⟩ := bind_ok h
      have hlt : sizeOf args < n := by simp at hsz; omega
      have iha := (ih _ hlt).2.2.2.2.1 d sc args rr (le_refl _) hrr
      split at h
      next => exact Except.noConfusion h
      next func =>
        split at h
        next => exact Except.noConfusion h
        next =>
          obtain ⟨u, hu, h⟩ := bind_ok h
          injection h with h
          subst h
          exact ⟨extendsTrans iha.1 (extendsTrans (extendsEmit rr.1 _) (extendsEmit _ _)),
            by simpa [letSizesCall] using iha.2⟩
    -- InvArgs
    · intro d sc args r hsz h
      cases args with
      | nil =>
          rw [compile_call_args] at h
          injection h with h
          subst h
          exact ⟨extendsRefl d, by simpa [letSizesL] using scStepRefl sc⟩
      | cons arg rest =>
          rw [compile_call_args] at h
          obtain ⟨arg_type, hat, h⟩ := bind_ok h
          obtain ⟨ra, hra, h⟩ := bind_ok h
          obtain ⟨rr, hrr, h⟩ := bind_ok h
          injection h with h
          subst h
          have hlt1 : sizeOf arg < n := by simp at hsz; omega
          have hlt2 : sizeOf rest < n := by simp at hsz; omega
          have e1 := (ih _ hlt1).1 d sc arg ra (le_refl _) hra
          have e2 := (ih _ hlt2).2.2.2.2.1 _ ra.2 rest rr (le_refl _) hrr
          refine ⟨extendsTrans e1.1 (extendsTrans (extendsEmit ra.1 _) (extendsTrans (extendsEmit _ _) e2.1)), ?_⟩
          simpa [letSizesL] using scStepTrans e1.2 e2.2
    -- InvLoop
    · intro d sc l r hsz h
      obtain ⟨body⟩ := l
      obtain ⟨body_stmts, body_rt⟩ := body
      rw [compile_loop] at h
      obtain ⟨body_rtype, hbt, h⟩ := bind_ok h
      obtain ⟨u, hck, h⟩ := bind_ok h
      obtain ⟨rb, hrb, h⟩ := bind_ok h
      have hlt : sizeOf body_stmts < n := by simp at hsz; omega
      have ihb := (ih _ hlt).2.2.2.2.2.2.1 _ _ body_stmts rb (le_refl _) hrb
      obtain ⟨ho, he, hl, hp⟩ := ihb.2
      split at h
      next => exact Except.noConfusion h
      next popped rest heqpop =>
        injection h with h
        subst h
        have hrest : rest = sc.1.loop_ends := by
          have := heqpop.symm.trans hl
          exact (List.cons.injEq _ _ _ _ ▸ this).2
        refine ⟨extendsTrans (extendsEmit d _) (extendsTrans ihb.1
          (extendsTrans (extendsEmit rb.1 _) (extendsEmit _ _))), ?_, ?_, ?_, ?_⟩
        · simpa [letSizesLoop] using ho
        · simpa using he
        · simpa using hrest
        · simpa using hp
    -- InvStmts
    · intro d sc stmts r hsz h
      cases stmts with
      | nil =>
          rw [compile_statements] at h
          injection h with h
          subst h
          exact ⟨extendsRefl d, by simpa [letSizesL] using scStepRefl sc⟩
      | cons s rest =>
          rw [compile_statements] at h
          obtain ⟨rs, hrs, h⟩ := bind_ok h
          have hlt1 : sizeOf s < n := by simp at hsz; omega
          have hlt2 : sizeOf rest < n := by simp at hsz; omega
          have e1 := (ih _ hlt1).1 d sc s rs (le_refl _) hrs
          have e2 := (ih _ hlt2).2.2.2.2.2.2.1 rs.1 rs.2 rest r (le_refl _) h
          exact ⟨extendsTrans e1.1 e2.1, by simpa [letSizesL] using scStepTrans e1.2 e2.2⟩
    -- InvIf
    · intro d sc i r hsz h
      obtain ⟨condition, body, els⟩ := i
      obtain ⟨body_stmts, body_rt⟩ := body
      cases els with
      | none =>
          rw [compile_if] at h
          obtain ⟨cond_type, hct, h⟩ := bind_ok h
          obtain ⟨u1, hck, h⟩ := bind_ok h
          obtain ⟨rc, hrc, h⟩ := bind_ok h
          obtain ⟨rb, hrb, h⟩ := bind_ok h
          obtain ⟨then_rtype, htt, h⟩ := bind_ok h
          obtain ⟨u2, hcu, h⟩ := bind_ok h
          injection h with h
          subst h
          have hlt1 : sizeOf condition < n := by simp at hsz; omega
          have hlt2 : sizeOf body_stmts < n := by simp at hsz; omega
          have e1 := (ih _ hlt1).1 d sc condition rc (le_refl _) hrc
          have e2 := (ih _ hlt2).2.2.2.2.2.2.1 _ rc.2 body_stmts rb (le_refl _) hrb
          refine ⟨extendsTrans e1.1 (extendsTrans (extendsEmit rc.1 _)
            (extendsTrans e2.1 (extendsEmit rb.1 _))), ?_⟩
          have := scStepTrans e1.2 e2.2
          simpa [letSizesIf] using this
      | some elsb =>
          obtain ⟨else_stmts, else_rt⟩ := elsb
          rw [compile_if] at h
          obtain ⟨cond_type, hct, h⟩ := bind_ok h
          obtain ⟨u1, hck, h⟩ := bind_ok h
          obtain ⟨rc, hrc, h⟩ := bind_ok h
          obtain ⟨rb, hrb, h⟩ := bind_ok h
          obtain ⟨then_rtype, htt, h⟩ := bind_ok h
          obtain ⟨else_rtype, het, h⟩ := bind_ok h
          obtain ⟨u2, hcm, h⟩ := bind_ok h
          obtain ⟨re, hre, h⟩ := bind_ok h
          injection h with h
          subst h
          have hlt1 : sizeOf condition < n := by simp at hsz; omega
          have hlt2 : sizeOf body_stmts < n := by simp at hsz; omega
          have hlt3 : sizeOf else_stmts < n := by simp at hsz; omega
          have e1 := (ih _ hlt1).1 d sc condition rc (le_refl _) hrc
          have e2 := (ih _ hlt2).2.2.2.2.2.2.1 _ rc.2 body_stmts rb (le_refl _) hrb
          have e3 := (ih _ hlt3).2.2.2.2.2.2.1 _ rb.2 else_stmts re (le_refl _) hre
          refine ⟨extendsTrans e1.1 (extendsTrans (extendsEmit rc.1 _) (extendsTrans e2.1
            (extendsTrans (extendsEmit rb.1 _) (extendsTrans (extendsEmit _ _)
              (extendsTrans e3.1 (extendsEmit re.1 _)))))), ?_⟩
          have := scStepTrans (scStepTrans e1.2 e2.2) e3.2
          simpa [letSizesIf] using this

/-- Bookkeeping invariant of statement compilation: on success the
instruction buffer is only appended to, and the innermost scope's offset
counter advances by exactly the sizes of the lets the statement registers,
leaving end label, loop-end stack and parent chain unchanged. -/
theorem compile_expression_inv (d : CodeData) (sc : Scopes) (e : Expression)
    (r : CodeData × Scopes) (h : compile_expression d sc e = .ok r) :
    Extends d r.1 ∧ ScStep sc r.2 (letSizesE e) :=
  (inv_below (sizeOf e)).1 d sc e r (le_refl _) h

/-- Bookkeeping invariant of statement-sequence compilation (see
`compile_expression_inv`). -/
theorem compile_statements_inv (d : CodeData) (sc : Scopes)
    (stmts : List Expression) (r : CodeData × Scopes)
    (h : compile_statements d sc stmts = .ok r) :
    Extends d r.1 ∧ ScStep sc r.2 (letSizesL stmts) :=
  (inv_below (sizeOf stmts)).2.2.2.2.2.2.1 d sc stmts r (le_refl _) h

/-- Bookkeeping invariant of the call-argument loop (see
`compile_expression_inv`). -/
theorem compile_call_args_inv (d : CodeData) (sc : Scopes) (args : List Expression)
    (r : CodeData × Scopes × List Ty × Nat) (h : compile_call_args d sc args = .ok r) :
    Extends d r.1 ∧ ScStep sc r.2.1 (letSizesL args) :=
  (inv_below (sizeOf args)).2.2.2.2.1 d sc args r (le_refl _) h


/-- Parameter binding never touches the offset counter, the end label or the
loop stack: it only fills the variable list and the name table. -/
theorem bind_params_fields (span : InputSpan) : ∀ (ps : List (String × AstType))
    (next : Nat) (scope scope2 : ScopeData) (n2 : Nat),
    bind_params span ps next scope = .ok (scope2, n2) →
    scope2.next_offset = scope.next_offset ∧ scope2.end_label = scope.end_label ∧
    scope2.loop_ends = scope.loop_ends := by
  intro ps
  induction ps with
  | nil =>
      intro next scope scope2 n2 h
      simp only [bind_params] at h
      injection h with h
      injection h with h1 h2
      subst h1
      exact ⟨rfl, rfl, rfl⟩
  | cons p rest ih =>
      intro next scope scope2 n2 h
      obtain ⟨name, var_type⟩ := p
      simp only [bind_params] at h
      split at h
      next => exact Except.noConfusion h
      next var hvar =>
        split at h
        next => exact Except.noConfusion h
        next s1 hadd =>
          have hs1 : s1.next_offset = scope.next_offset ∧ s1.end_label = scope.end_label ∧
              s1.loop_ends = scope.loop_ends := by
            simp only [add_ident] at hadd
            split at hadd
            next =>
              injection hadd with hadd
              subst hadd
              exact ⟨rfl, rfl, rfl⟩
            next =>
              split at hadd
              next =>
                injection hadd with hadd
                subst hadd
                exact ⟨rfl, rfl, rfl⟩
              next => exact Except.noConfusion hadd
          have hrec := ih _ _ _ _ h
          exact ⟨hrec.1.trans hs1.1, hrec.2.1.trans hs1.2.1, hrec.2.2.trans hs1.2.2⟩

/-- Folding the wrapping `i16` addition over nonnegative sizes is plain
addition as long as the total stays within `i16` range. -/
theorem foldl_addI16_sum : ∀ (l : List Int) (init : Int), 0 ≤ init →
    (∀ x ∈ l, 0 ≤ x) → init + l.sum ≤ 32767 →
    List.foldl addI16 init l = init + l.sum := by
  intro l
  induction l with
  | nil => intro init _ _ _; simp
  | cons x xs ih =>
      intro init h0 hall hsum
      have hx : 0 ≤ x := hall x (List.mem_cons_self x xs)
      have hxs : ∀ y ∈ xs, 0 ≤ y := fun y hy => hall y (List.mem_cons_of_mem _ hy)
      have hsnn : 0 ≤ xs.sum := List.sum_nonneg hxs
      have hsum2 : init + x + xs.sum ≤ 32767 := by
        rw [List.sum_cons] at hsum
        omega
      have hstep : addI16 init x = init + x := by
        simp only [addI16, toSigned16]
        omega
      rw [List.foldl_cons, hstep, ih (init + x) (by omega) hxs hsum2,
        List.sum_cons]
      ring

/-- C3: for every function whose local let bindings have (i16-cast,
nonnegative) sizes summing to S with 8 + S in i16 range, the prologue
placeholder at position (start + 4) is patched to a stack-pointer advance of
exactly 8 + S bytes: the local offset counter starts at 8 and grows by each
local's size. -/
theorem frame_reservation_is_8_plus_locals (d : CodeData) (g : ScopeData)
    (i : Nat) (f : Function) (d2 : CodeData)
    (hf : g.functions[i]? = some f)
    (h : compile_global_fn d g i = .ok d2)
    (hpos : ∀ x ∈ letSizesL f.ast.body.statements, 0 ≤ x)
    (hbound : 8 + (letSizesL f.ast.body.statements).sum ≤ 32767) :
    d2.instructions[d.instructions.length + 4]? =
      some (.AddSignedValue STACK_POINTER STACK_POINTER
        (8 + (letSizesL f.ast.body.statements).sum)) := by
  simp only [compile_global_fn] at h
  split at h
  next heq => rw [hf] at heq; exact Option.noConfusion heq
  next func heqf =>
    rw [hf] at heqf
    injection heqf with heqf
    subst heqf
    split at h
    next => exact Except.noConfusion h
    next scope1 n2 hbp =>
      split at h
      next => exact Except.noConfusion h
      next db scb hcb =>
        injection h with h
        subst h
        simp only [compile_block] at hcb
        have hinv := compile_statements_inv _ _ _ _ hcb
        obtain ⟨tail, htail⟩ := hinv.1
        have hoff := hinv.2.1
        have hsc1 : scope1.next_offset = 8 := by
          have := (bind_params_fields _ _ _ _ _ _ hbp).1
          simpa [ScopeData.new] using this
        have hframe : scb.1.next_offset = 8 + (letSizesL f.ast.body.statements).sum := by
          rw [hoff]
          simp only [hsc1]
          exact foldl_addI16_sum _ 8 (by norm_num) hpos hbound
        have hlen : d.instructions.length + 4 < db.instructions.length := by
          rw [htail]
          simp only [emit, next_unique_label, List.length_append, List.length_cons,
            List.length_nil]
          omega
        have hlen2 : d.instructions.length + 4 <
            (db.instructions.set (d.instructions.length + 4)
              (.AddSignedValue STACK_POINTER STACK_POINTER scb.1.next_offset)).length := by
          simpa using hlen
        simp only [emit, next_unique_label, List.append_assoc, List.singleton_append,
          List.cons_append, List.nil_append, List.length_append, List.length_cons,
          List.length_nil]
        norm_num
        rw [List.getElem?_append_left hlen2]
        have hset := @List.getElem?_set_self _ db.instructions (d.instructions.length + 4)
          (Instruction.AddSignedValue STACK_POINTER STACK_POINTER scb.1.next_offset) hlen
        exact hset.trans (by rw [hframe])


/-- tyEq against `BottomType` holds exactly for `BottomType` itself. -/
theorem tyEq_bottom_iff : ∀ a : Ty, tyEq a .BottomType = true ↔ a = .BottomType := by
  intro a
  cases a <;> simp [tyEq]

/-- tyEq against `Unit` holds exactly for `Unit` itself. -/
theorem tyEq_unit_iff : ∀ a : Ty, tyEq a .Unit = true ↔ a = .Unit := by
  intro a
  cases a <;> simp [tyEq]

/-- tyEq is reflexive. -/
theorem tyEq_refl : ∀ a : Ty, tyEq a a = true
  | .Bool => rfl
  | .Int => rfl
  | .Unit => rfl
  | .BottomType => rfl
  | .Array t n => by simp [tyEq, tyEq_refl t]
  | .Pointer t => by simp [tyEq, tyEq_refl t]
  | .Composite n f s => by simp [tyEq]

/-- The success condition of `check_type`: one side is `BottomType` or the
two types test equal. -/
theorem check_type_ok_iff (a b : Ty) :
    check_type a b = .ok () ↔ (a = .BottomType ∨ b = .BottomType ∨ tyEq a b = true) := by
  cases h1 : tyEq a .BottomType <;> cases h2 : tyEq b .BottomType <;>
    cases h3 : tyEq a b <;>
    simp [check_type, h1, h2, h3, ← tyEq_bottom_iff]

/-- When `check_type` does not succeed it fails carrying the expected and
the found type, in that order. -/
theorem check_type_error_eq (a b : Ty) (h : check_type a b ≠ .ok ()) :
    check_type a b = .error (.IncorrectType b a) := by
  cases hcond : (!(tyEq a .BottomType) && !(tyEq b .BottomType) && !(tyEq a b)) with
  | true => simp [check_type, hcond]
  | false => exact absurd (by simp [check_type, hcond]) h

/-- On composite-free types the source's equality test is structural
equality. -/
theorem tyEq_structural : ∀ a b : Ty, compositeFree a = true →
    (tyEq a b = true ↔ a = b)
  | .Bool, b, _ => by cases b <;> simp [tyEq]
  | .Int, b, _ => by cases b <;> simp [tyEq]
  | .Unit, b, _ => by cases b <;> simp [tyEq]
  | .BottomType, b, _ => by cases b <;> simp [tyEq]
  | .Array t n, b, hfree => by
      have hft : compositeFree t = true := by simpa [compositeFree] using hfree
      cases b <;> simp [tyEq, tyEq_structural t _ hft]
  | .Pointer t, b, hfree => by
      have hft : compositeFree t = true := by simpa [compositeFree] using hfree
      cases b <;> simp [tyEq, tyEq_structural t _ hft]
  | .Composite n f s, b, hfree => by
      exact absurd hfree (by simp [compositeFree])

/-- C5: the type-compatibility check succeeds exactly when either side is
`BottomType` or the two types are equal, where two composite types are
equal iff their names match and composite-free types compare structurally;
an incompatible pair fails with a type error carrying the expected and the
found type. -/
theorem check_type_spec :
    (∀ a b : Ty, check_type a b = .ok () ↔
      (a = .BottomType ∨ b = .BottomType ∨ tyEq a b = true)) ∧
    (∀ (n : String) (f : List (String × Nat × Ty)) (s : Nat)
      (n2 : String) (f2 : List (String × Nat × Ty)) (s2 : Nat),
      tyEq (.Composite n f s) (.Composite n2 f2 s2) = (n == n2)) ∧
    (∀ a b : Ty, compositeFree a = true → (tyEq a b = true ↔ a = b)) ∧
    (∀ a b : Ty, check_type a b ≠ .ok () →
      check_type a b = .error (.IncorrectType b a)) :=
  ⟨check_type_ok_iff, fun _ _ _ _ _ _ => rfl, tyEq_structural, check_type_error_eq⟩

/-- Witness for C5: `Int` is compatible with itself, `BottomType` with
`Bool`, and `Int` against expected `Bool` fails naming `Bool` (expected)
and `Int` (found). -/
theorem check_type_spec_witness :
    check_type .Int .Int = .ok () ∧
    check_type .BottomType .Bool = .ok () ∧
    check_type .Int .Bool = .error (.IncorrectType .Bool .Int) :=
  ⟨(check_type_spec.1 .Int .Int).mpr (.inr (.inr rfl)),
   (check_type_spec.1 .BottomType .Bool).mpr (.inl rfl),
   check_type_spec.2.2.2 .Int .Bool (fun h => Except.noConfusion h)⟩


/-- C7: adding an identifier under a name not yet bound in the scope
succeeds and binds it; adding a name already bound to a different entity
fails with the shadowing error; in particular compiling `let x: Int;`
twice in one scope fails with the shadowing error. -/
theorem add_ident_spec :
    (∀ (s : ScopeData) (name : String) (id : IdentId),
      findIdent s name = none →
      add_ident s name id = .ok { s with ident_table := (name, id) :: s.ident_table }) ∧
    (∀ (s : ScopeData) (name : String) (id id2 : IdentId),
      findIdent s name = some id2 → id2 ≠ id →
      add_ident s name id = .error .IdentShadow) ∧
    (compile_statements ⟨[], 0⟩ (ScopeData.new "LE", []) dupLets =
      .error .IdentShadow) := by
  refine ⟨?_, ?_, rfl⟩
  · intro s name id h
    simp [add_ident, h]
  · intro s name id id2 h hne
    simp [add_ident, h, hne]

/-- Witness for C7: adding `x` to an empty scope succeeds; rebinding `x`
(bound to variable 0) to function 0 fails with the shadowing error. -/
theorem add_ident_spec_witness :
    add_ident (ScopeData.new "LE") "x" (.VarIdentId 0) =
      .ok { ScopeData.new "LE" with ident_table := [("x", .VarIdentId 0)] } ∧
    add_ident { ScopeData.new "LE" with ident_table := [("x", .VarIdentId 0)] }
        "x" (.FnIdentId 0) = .error .IdentShadow :=
  ⟨add_ident_spec.1 (ScopeData.new "LE") "x" (.VarIdentId 0) rfl,
   add_ident_spec.2.1 { ScopeData.new "LE" with ident_table := [("x", .VarIdentId 0)] }
     "x" (.FnIdentId 0) (.VarIdentId 0) rfl (by decide)⟩

/-- C8: a `break` with a non-empty loop-end stack emits a jump to the
innermost loop's end label; with no active loop it reports the diagnostic
"`break` outside of loop" carrying the break statement's source span and
generation halts with that reported error. -/
theorem break_spec (d : CodeData) (sc : Scopes) (span : InputSpan) (rt : AstType) :
    (∀ (label : LabelId) (rest : List LabelId), sc.1.loop_ends = label :: rest →
      compile_expression d sc (.mk .Break span rt) = .ok (emit d (.Jump label), sc)) ∧
    (sc.1.loop_ends = [] →
      compile_expression d sc (.mk .Break span rt) =
        .error (.Reported "`break` outside of loop" span)) := by
  constructor
  · intro label rest h
    simp [compile_expression, h]
  · intro h
    simp [compile_expression, h]

/-- Witness for C8 on concrete scopes: inside a loop with end label `L7`
the break jumps to `L7`; outside any loop it reports the diagnostic at the
break's span `sp0`. -/
theorem break_spec_witness :
    compile_expression ⟨[], 0⟩ ({ ScopeData.new "LE" with loop_ends := ["L7"] }, [])
        (.mk .Break sp0 (.Primitive .UnitType)) =
      .ok (emit ⟨[], 0⟩ (.Jump "L7"), ({ ScopeData.new "LE" with loop_ends := ["L7"] }, [])) ∧
    compile_expression ⟨[], 0⟩ (ScopeData.new "LE", [])
        (.mk .Break sp0 (.Primitive .UnitType)) =
      .error (.Reported "`break` outside of loop" sp0) :=
  ⟨(break_spec ⟨[], 0⟩ ({ ScopeData.new "LE" with loop_ends := ["L7"] }, [])
      sp0 (.Primitive .UnitType)).1 "L7" [] rfl,
   (break_spec ⟨[], 0⟩ (ScopeData.new "LE", []) sp0 (.Primitive .UnitType)).2 rfl⟩

/-- C9: a numeric-literal expression compiles to an immediate add against
the zero register whose operand is the literal reduced to a signed 16-bit
value (equal mod 2^16 and within i16 range, exact iff the literal fits in
i16), while a global initializer literal is emitted as a full 32-bit word. -/
theorem litnum_spec :
    (∀ (d : CodeData) (sc : Scopes) (v : Int) (span : InputSpan) (rt : AstType),
      compile_expression d sc (.mk (.LitNumExpr v) span rt) =
        .ok (emit d (.AddSignedValue RESULT_REG ZERO_REG (toSigned16 v)), sc)) ∧
    (∀ v : Int, toSigned16 v % 65536 = v % 65536 ∧
      -32768 ≤ toSigned16 v ∧ toSigned16 v ≤ 32767 ∧
      (toSigned16 v = v ↔ -32768 ≤ v ∧ v ≤ 32767)) ∧
    (∀ (d : CodeData) (g : ScopeData) (i : Nat) (var : Variable) (label : LabelId)
      (a : Assignment) (n : Int) (span : InputSpan) (rt : AstType),
      g.vars[i]? = some var → var.location = .Label label →
      var.ast.assignment = some a → a.expression = .mk (.LitNumExpr n) span rt →
      compile_global_var d g i =
        .ok (emit (emit d (.Label label)) (.AllocateWords [toSigned32 n])) ∧
      -2147483648 ≤ toSigned32 n ∧ toSigned32 n ≤ 2147483647) := by
  refine ⟨fun d sc v span rt => rfl, ?_, ?_⟩
  · intro v
    refine ⟨?_, ?_, ?_, ?_⟩ <;> simp only [toSigned16] <;> omega
  · intro d g i var label a n span rt hv hl ha he
    obtain ⟨target, expression, aspan⟩ := a
    simp only [Assignment.expression] at he
    subst he
    refine ⟨?_, by simp only [toSigned32]; omega, by simp only [toSigned32]; omega⟩
    simp [compile_global_var, hv, hl, ha, Assignment.expression, Expression.expr]

/-- Witness for C9's global path on a concrete scope: a global `g = 5`
allocates the word 5 after its label, and `toSigned16` is exact on 5. -/
theorem litnum_spec_witness :
    compile_global_var ⟨[], 1⟩
        { functions := [], vars := [⟨.mk "g" (.Primitive .IntType)
            (some (.mk "g" (.mk (.LitNumExpr 5) sp0 (.Primitive .IntType)) sp0)) sp0,
            .Int, .Label "L0"⟩],
          next_offset := 8, ident_table := [("g", .VarIdentId 0)],
          loop_ends := [], end_label := "exit" } 0 =
      .ok (emit (emit ⟨[], 1⟩ (.Label "L0")) (.AllocateWords [toSigned32 5])) ∧
    toSigned16 5 = 5 :=
  ⟨(litnum_spec.2.2 ⟨[], 1⟩
      { functions := [], vars := [⟨.mk "g" (.Primitive .IntType)
          (some (.mk "g" (.mk (.LitNumExpr 5) sp0 (.Primitive .IntType)) sp0)) sp0,
          .Int, .Label "L0"⟩],
        next_offset := 8, ident_table := [("g", .VarIdentId 0)],
        loop_ends := [], end_label := "exit" } 0 _ "L0" _ 5 sp0 (.Primitive .IntType)
      rfl rfl rfl rfl).1,
   (litnum_spec.2.1 5).2.2.2.mpr (by decide)⟩

/-- C10: compiling `return e` performs no type check of `e` against the
enclosing function's return type: if `e` compiles, the return compiles to
`e`'s code followed by a jump to the end label, whatever the types
involved; and any failure is exactly `e`'s own failure, never a new type
error introduced by the return itself. -/
theorem return_no_type_check (d : CodeData) (sc : Scopes) (inner : Expression)
    (span : InputSpan) (rt : AstType) :
    (∀ r : CodeData × Scopes, compile_expression d sc inner = .ok r →
      compile_expression d sc (.mk (.Return inner) span rt) =
        .ok (emit r.1 (.Jump r.2.1.end_label), r.2)) ∧
    (∀ err : CompileErr, compile_expression d sc inner = .error err →
      compile_expression d sc (.mk (.Return inner) span rt) = .error err) := by
  constructor
  · intro r h
    simp [compile_expression, h, Except.bind]
  · intro err h
    simp [compile_expression, h, Except.bind]

/-- Witness for C10: `return 7` in a fresh scope with end label `LE`
compiles to the literal load followed by the jump to `LE`, although the
literal's type `Int` was never checked against anything. -/
theorem return_no_type_check_witness :
    compile_expression ⟨[], 0⟩ (ScopeData.new "LE", [])
        (.mk (.Return (.mk (.LitNumExpr 7) sp0 (.Primitive .IntType)))
          sp0 (.Primitive .BottomType)) =
      .ok (emit (emit ⟨[], 0⟩ (.AddSignedValue RESULT_REG ZERO_REG (toSigned16 7)))
        (.Jump "LE"), (ScopeData.new "LE", [])) :=
  (return_no_type_check ⟨[], 0⟩ (ScopeData.new "LE", [])
      (.mk (.LitNumExpr 7) sp0 (.Primitive .IntType)) sp0 (.Primitive .BottomType)).1
    (emit ⟨[], 0⟩ (.AddSignedValue RESULT_REG ZERO_REG (toSigned16 7)),
      (ScopeData.new "LE", [])) rfl


/-- Sum of a list of naturals that are all 4 is 4 times its length. -/
theorem sum_of_fours : ∀ l : List Nat, (∀ x ∈ l, x = 4) → l.sum = 4 * l.length := by
  intro l
  induction l with
  | nil => intro _; simp
  | cons x xs ih =>
      intro h
      have hx := h x (List.mem_cons_self x xs)
      have hxs := ih (fun y hy => h y (List.mem_cons_of_mem _ hy))
      simp [hx, hxs]
      ring

/-- Shape of the call-argument loop's output: the resolved types are in
argument order, the accumulated offset is the sum of their sizes, and the
emission decomposes into one chunk per argument, each chunk being the
argument's own code followed by exactly the store and the one-word
stack-pointer advance. -/
theorem compile_call_args_shape : ∀ (args : List Expression) (d : CodeData)
    (sc : Scopes) (r : CodeData × Scopes × List Ty × Nat),
    compile_call_args d sc args = .ok r →
    r.2.2.1.length = args.length ∧
    r.2.2.2 = (r.2.2.1.map Ty.size).sum ∧
    ∃ chunks : List (List Instruction),
      chunks.length = args.length ∧
      (∀ c ∈ chunks, ∃ code, c = code ++
        [.Store32 (.Const 0) STACK_POINTER RESULT_REG,
         .AddUnsignedValue STACK_POINTER STACK_POINTER 4]) ∧
      r.1.instructions = d.instructions ++ chunks.flatten := by
  intro args
  induction args with
  | nil =>
      intro d sc r h
      rw [compile_call_args] at h
      injection h with h
      subst h
      exact ⟨rfl, rfl, [], rfl, by simp, by simp⟩
  | cons arg rest ih =>
      intro d sc r h
      rw [compile_call_args] at h
      obtain ⟨arg_type, hat, h⟩ := bind_ok h
      obtain ⟨ra, hra, h⟩ := bind_ok h
      obtain ⟨rr, hrr, h⟩ := bind_ok h
      injection h with h
      subst h
      obtain ⟨hlen, hoff, chunks, hclen, hcshape, hcinstr⟩ := ih _ _ _ hrr
      obtain ⟨tail, htail⟩ := (compile_expression_inv d sc arg ra hra).1
      refine ⟨by simp [hlen], by simp [hoff], (tail ++
        [.Store32 (.Const 0) STACK_POINTER RESULT_REG,
         .AddUnsignedValue STACK_POINTER STACK_POINTER 4]) :: chunks,
        by simp [hclen], ?_, ?_⟩
      · intro c hc
        rcases List.mem_cons.mp hc with hc | hc
        · exact ⟨tail, hc⟩
        · exact hcshape c hc
      · rw [hcinstr]
        simp [emit, htail, List.append_assoc]

/-- C1 (amended): compiling a call emits, per argument in left-to-right
order, the argument's code followed by exactly two instructions (a store of
the result register at the stack-pointer address and a one-word advance),
then the call, then a restore instruction subtracting the sum of the
resolved argument types' sizes reduced mod 2^16.  When every argument type
is word-sized (4 bytes) and 4 x (argument count) is below 2^16, the
subtracted amount equals the bytes pushed, so the stack pointer
round-trips. -/
theorem call_stack_balance (d : CodeData) (sc : Scopes) (name : String)
    (args : List Expression) (cspan : InputSpan) (r : CodeData × Scopes)
    (h : compile_call d sc (.mk name args cspan) = .ok r) :
    ∃ (tys : List Ty) (chunks : List (List Instruction)) (loc : LabelId),
      tys.length = args.length ∧ chunks.length = args.length ∧
      (∀ c ∈ chunks, ∃ code, c = code ++
        [.Store32 (.Const 0) STACK_POINTER RESULT_REG,
         .AddUnsignedValue STACK_POINTER STACK_POINTER 4]) ∧
      r.1.instructions = d.instructions ++ chunks.flatten ++
        [.JumpStore loc, .SubUnsignedValue STACK_POINTER STACK_POINTER
          ((tys.map Ty.size).sum % 65536)] ∧
      ((∀ t ∈ tys, t.size = 4) → 4 * args.length < 65536 →
        (tys.map Ty.size).sum % 65536 = 4 * args.length) := by
  rw [compile_call] at h
  obtain ⟨rr, hrr, h⟩ := bind_ok h
  obtain ⟨ident, hident, h⟩ := bind_ok h
  split at h
  next => exact Except.noConfusion h
  next func =>
    split at h
    next => exact Except.noConfusion h
    next hnlen =>
      obtain ⟨u, hck, h⟩ := bind_ok h
      injection h with h
      subst h
      obtain ⟨hlen, hoff, chunks, hclen, hshape, hinstr⟩ :=
        compile_call_args_shape args d sc rr hrr
      refine ⟨rr.2.2.1, chunks, func.location, hlen, hclen, hshape, ?_, ?_⟩
      · simp [emit, hinstr, hoff, List.append_assoc]
      · intro hall hbound
        have hmap : ∀ x ∈ rr.2.2.1.map Ty.size, x = 4 := by
          intro x hx
          obtain ⟨t, ht, hxt⟩ := List.mem_map.mp hx
          rw [← hxt]
          exact hall t ht
        have hsum : (rr.2.2.1.map Ty.size).sum = 4 * args.length := by
          rw [sum_of_fours _ hmap]
          simp [hlen]
        rw [hsum]
        exact Nat.mod_eq_of_lt hbound

/-- C1 counterexample: the call `f(e)` with `f : fn(()) -> ()` and `e` of
unit type compiles successfully, pushes one word (a single 4-byte advance
of the stack pointer), but the restore instruction subtracts 0 bytes: the
amount subtracted is not the 4 bytes pushed, so the stack pointer does not
round-trip to its pre-call value. -/
theorem call_unit_arg_unbalanced :
    (compile_call ⟨[], 1⟩ (scopeWithFUnit, []) callFUnit).map
        (fun p => p.1.instructions) =
      .ok [.Store32 (.Const 0) STACK_POINTER RESULT_REG,
           .AddUnsignedValue STACK_POINTER STACK_POINTER 4,
           .JumpStore "L0",
           .SubUnsignedValue STACK_POINTER STACK_POINTER 0] ∧
    (0 : Nat) ≠ 4 * 1 :=
  ⟨rfl, by decide⟩

/-- Witness for C1 at the call `g(1, 2)` with two word-sized arguments. -/
theorem call_stack_balance_witness :
    ∃ (tys : List Ty) (chunks : List (List Instruction)) (loc : LabelId),
      tys.length = gIntsArgs.length ∧ chunks.length = gIntsArgs.length ∧
      (∀ c ∈ chunks, ∃ code, c = code ++
        [.Store32 (.Const 0) STACK_POINTER RESULT_REG,
         .AddUnsignedValue STACK_POINTER STACK_POINTER 4]) ∧
      (⟨[ .AddSignedValue RESULT_REG ZERO_REG 1
        , .Store32 (.Const 0) STACK_POINTER RESULT_REG
        , .AddUnsignedValue STACK_POINTER STACK_POINTER 4
        , .AddSignedValue RESULT_REG ZERO_REG 2
        , .Store32 (.Const 0) STACK_POINTER RESULT_REG
        , .AddUnsignedValue STACK_POINTER STACK_POINTER 4
        , .JumpStore "L0"
        , .SubUnsignedValue STACK_POINTER STACK_POINTER 8 ], 1⟩ : CodeData).instructions =
        (⟨[], 1⟩ : CodeData).instructions ++ chunks.flatten ++
        [.JumpStore loc, .SubUnsignedValue STACK_POINTER STACK_POINTER
          ((tys.map Ty.size).sum % 65536)] ∧
      ((∀ t ∈ tys, t.size = 4) → 4 * gIntsArgs.length < 65536 →
        (tys.map Ty.size).sum % 65536 = 4 * gIntsArgs.length) :=
  call_stack_balance ⟨[], 1⟩ (scopeWithGInts, []) "g" gIntsArgs sp0
    (⟨[ .AddSignedValue RESULT_REG ZERO_REG 1
      , .Store32 (.Const 0) STACK_POINTER RESULT_REG
      , .AddUnsignedValue STACK_POINTER STACK_POINTER 4
      , .AddSignedValue RESULT_REG ZERO_REG 2
      , .Store32 (.Const 0) STACK_POINTER RESULT_REG
      , .AddUnsignedValue STACK_POINTER STACK_POINTER 4
      , .JumpStore "L0"
      , .SubUnsignedValue STACK_POINTER STACK_POINTER 8 ], 1⟩,
      (scopeWithGInts, [])) rfl

/-- C2 (code bug): the parameter-binding loop evaluated at the failing
inputs.  For `fn f(a: Int)` the single (last-declared) parameter is bound
at frame offset 0 — not a negative offset, and aliasing the slot where the
callee saves the caller's frame pointer; with `fn f(a: Int, b: Int)` the
parameters are bound in reverse declaration order at 0 and -4. -/
theorem last_param_offset_is_zero :
    (bind_params sp0 ([("a", AstType.Primitive .IntType)].reverse) 0
        (ScopeData.new "L1")).map (fun p => p.1.vars.map Variable.location) =
      .ok [.Offset 0] ∧
    (bind_params sp0 ([("a", AstType.Primitive .IntType),
        ("b", AstType.Primitive .IntType)].reverse) 0
        (ScopeData.new "L1")).map (fun p => p.1.vars.map Variable.location) =
      .ok [.Offset 0, .Offset (-4)] ∧
    ¬ ((0 : Int) < 0) :=
  ⟨rfl, rfl, by decide⟩

/-- C4: the program `fn main() -> () { let x: Int = 5; return; }` compiles
to exactly the label for main, the 4-instruction prologue whose
reservation is patched to advance the stack pointer by 12 bytes, the
literal load of 5 into the result register, the store to frame offset 8,
the jump to the end label, the end label, and the 4-instruction epilogue. -/
theorem codegen_main_end_to_end :
    codegen mainProgram = .ok mainCompiled.instructions := rfl

/-- Witness for C3 at `mainDecl`: the patched reservation advances the
stack pointer by 12 = 8 + 4 bytes. -/
theorem frame_reservation_witness :
    compile_global_fn ⟨[], 1⟩ scopeWithMain 0 = .ok mainCompiled ∧
    mainCompiled.instructions[(⟨[], 1⟩ : CodeData).instructions.length + 4]? =
      some (.AddSignedValue STACK_POINTER STACK_POINTER
        (8 + (letSizesL mainFunction.ast.body.statements).sum)) :=
  ⟨rfl, frame_reservation_is_8_plus_locals ⟨[], 1⟩ scopeWithMain 0 mainFunction
    mainCompiled rfl rfl (by decide) (by decide)⟩


/-- Resolving a primitive type reference never consults the scope: it is
the type-table image. -/
theorem resolve_type_primitive (sc : Scopes) (p : PrimitiveType) (t : Ty)
    (h : type_table (.Primitive p) = some t) :
    resolve_type sc (.Primitive p) = .ok t := by
  simp [resolve_type, h]

/-- C6 (amended): conditional branch typing.  With no else branch, a
then-block whose resolved result type is neither `Unit` nor the divergent
`BottomType` is rejected; with an else branch, branches with unequal,
non-divergent result types are rejected, while equal branch types — or one
side divergent — succeed, provided the condition and the branch bodies
themselves compile. -/
theorem if_branch_typing (d : CodeData) (sc : Scopes) (cond : Expression)
    (bstmts : List Expression) (pb : PrimitiveType) (tThen : Ty)
    (ht : type_table (.Primitive pb) = some tThen) :
    (tThen ≠ .Unit → tThen ≠ .BottomType →
      ∀ r, compile_if d sc (.mk cond (.mk bstmts (.Primitive pb)) none) ≠ .ok r) ∧
    (∀ (estmts : List Expression) (pe : PrimitiveType) (tElse : Ty),
      type_table (.Primitive pe) = some tElse →
      tyEq tElse tThen = false → tElse ≠ .BottomType → tThen ≠ .BottomType →
      ∀ r, compile_if d sc (.mk cond (.mk bstmts (.Primitive pb))
        (some (.mk estmts (.Primitive pe)))) ≠ .ok r) ∧
    (∀ (estmts : List Expression) (pe : PrimitiveType) (tElse : Ty)
      (ct : Ty) (rc rb re : CodeData × Scopes),
      type_table (.Primitive pe) = some tElse →
      (tElse = .BottomType ∨ tThen = .BottomType ∨ tyEq tElse tThen = true) →
      resolve_type sc cond.rtype = .ok ct →
      check_type ct .Bool = .ok () →
      compile_expression d sc cond = .ok rc →
      compile_statements (emit (next_unique_label (next_unique_label rc.1).2).2
        (.JumpIfZero RESULT_REG (next_unique_label rc.1).1)) rc.2 bstmts = .ok rb →
      compile_statements (emit (emit rb.1
          (.Jump (next_unique_label (next_unique_label rc.1).2).1))
        (.Label (next_unique_label rc.1).1)) rb.2 estmts = .ok re →
      compile_if d sc (.mk cond (.mk bstmts (.Primitive pb))
        (some (.mk estmts (.Primitive pe)))) =
        .ok (emit re.1 (.Label (next_unique_label (next_unique_label rc.1).2).1),
          re.2)) := by
  refine ⟨?_, ?_, ?_⟩
  · intro hne hnb r hcontra
    rw [compile_if] at hcontra
    obtain ⟨ct, hct2, h⟩ := bind_ok hcontra
    obtain ⟨u1, hck2, h⟩ := bind_ok h
    obtain ⟨rc, hcc2, h⟩ := bind_ok h
    obtain ⟨rb, hb2, h⟩ := bind_ok h
    obtain ⟨tt, htt, h⟩ := bind_ok h
    obtain ⟨u2, hcu, h⟩ := bind_ok h
    rw [resolve_type_primitive rb.2 pb tThen ht] at htt
    injection htt with htt
    subst htt
    rcases (check_type_ok_iff _ _).mp hcu with hq | hq | hq
    · exact hnb hq
    · exact Ty.noConfusion hq
    · exact hne ((tyEq_unit_iff _).mp hq)
  · intro estmts pe tElse hte hfalse hnel hnth r hcontra
    rw [compile_if] at hcontra
    obtain ⟨ct, hct2, h⟩ := bind_ok hcontra
    obtain ⟨u1, hck2, h⟩ := bind_ok h
    obtain ⟨rc, hcc2, h⟩ := bind_ok h
    obtain ⟨rb, hb2, h⟩ := bind_ok h
    obtain ⟨tt, htt, h⟩ := bind_ok h
    obtain ⟨te, hee, h⟩ := bind_ok h
    obtain ⟨u2, hcm, h⟩ := bind_ok h
    rw [resolve_type_primitive rb.2 pb tThen ht] at htt
    injection htt with htt
    subst htt
    rw [resolve_type_primitive rb.2 pe tElse hte] at hee
    injection hee with hee
    subst hee
    rcases (check_type_ok_iff _ _).mp hcm with hq | hq | hq
    · exact hnel hq
    · exact hnth hq
    · rw [hfalse] at hq
      exact Bool.noConfusion hq
  · intro estmts pe tElse ct rc rb re hte hdisj hcr hck hcc hb he
    have hcm : check_type tElse tThen = .ok () := (check_type_ok_iff _ _).mpr hdisj
    rw [compile_if, hcr]
    simp only [Except.bind]
    rw [hck]
    simp only [Except.bind]
    rw [hcc]
    simp only [Except.bind]
    rw [hb]
    simp only [Except.bind]
    rw [resolve_type_primitive rb.2 pb tThen ht]
    simp only [Except.bind]
    rw [resolve_type_primitive rb.2 pe tElse hte]
    simp only [Except.bind]
    rw [hcm]
    simp only [Except.bind]
    rw [he]

/-- C6 counterexample: a conditional with no else branch whose then-block
resolves to the non-Unit type `!` (BottomType) is accepted, not rejected:
the check against `Unit` is BottomType-absorbing. -/
theorem if_bottom_no_else_accepted :
    type_table (.Primitive .BottomType) = some .BottomType ∧
    Ty.BottomType ≠ .Unit ∧
    (compile_if ⟨[], 0⟩ (ScopeData.new "LE", []) bottomIf).map
        (fun p => p.1.instructions) =
      .ok [.JumpIfZero RESULT_REG "L0", .Label "L0"] :=
  ⟨rfl, fun h => Ty.noConfusion h, rfl⟩

/-- Witness for C6 at `if (cond : Bool) { } else { }` with both branch
types `Int`: matched branch types compile successfully. -/
theorem if_branch_typing_witness :
    compile_if ⟨[], 0⟩ (ScopeData.new "LE", [])
      (.mk (.mk .EmptyExpr sp0 (.Primitive .BoolType))
        (.mk [] (.Primitive .IntType))
        (some (.mk [] (.Primitive .IntType)))) =
      .ok (⟨[.JumpIfZero RESULT_REG "L0", .Jump "L1", .Label "L0", .Label "L1"], 2⟩,
        (ScopeData.new "LE", [])) :=
  (if_branch_typing ⟨[], 0⟩ (ScopeData.new "LE", [])
      (.mk .EmptyExpr sp0 (.Primitive .BoolType)) [] .IntType .Int rfl).2.2
    [] .IntType .Int .Bool
    (⟨[], 0⟩, (ScopeData.new "LE", []))
    (⟨[.JumpIfZero RESULT_REG "L0"], 2⟩, (ScopeData.new "LE", []))
    (⟨[.JumpIfZero RESULT_REG "L0", .Jump "L1", .Label "L0"], 2⟩,
      (ScopeData.new "LE", []))
    rfl (.inr (.inr rfl)) rfl rfl rfl rfl rfl

end Dlx
